import Mathlib

/-!
Verification development for the MongoDB-to-OpenSearch replication and
reconciliation engine.

The embedding models:
- the Target Adapter (`OpenSearchService` in the source): bulk upsert with
  `doc_as_upsert` partial-merge semantics, single-document delete treating
  a 404 as success, and the bulk-response bookkeeping that separates hard
  errors from version conflicts;
- the Batch Processor (`BulkProcessor`): bounded batch detachment, retry
  with a fixed attempt ceiling, re-queueing on exhausted retries;
- the Reconciliation Engine (`ReconciliationService`): count comparison,
  in-memory identifier set difference, batched repair of missing documents;
- the Drift Detector (`DocumentCountMonitor`): count check and the
  auto-sync trigger condition.

Documents are identified by natural numbers standing for MongoDB ObjectId
strings; a document body is an association list from field names to field
values standing for the flat JSON object the source builds for each bulk
entry.  The target index is an association list from document ids to
bodies.  MongoDB and OpenSearch enforce unique ids, so theorems carry the
corresponding Nodup hypotheses where they matter.
-/

namespace MongoOsSync

/-- Document identifiers: stand-ins for MongoDB ObjectId strings. -/
abbrev DocId := Nat

/-- A document body: an association list from field names to values, the
shape of the flat JSON object `bulkIndex` builds for each bulk entry.
Earlier bindings shadow later ones on lookup. -/
abbrev Fields := List (String × Nat)

/-- A source document: its `_id` plus its fields. -/
structure Doc where
  id : DocId
  fields : Fields
deriving DecidableEq, Repr

/-- The target index state: an association list from document ids to stored
bodies.  A well-formed index binds each id at most once. -/
abbrev Target := List (DocId × Fields)

/-- The field names bound by a body. -/
def keysOf (f : Fields) : List String := f.map (·.1)

/-- The document ids present in the target index. -/
def targetIds (t : Target) : List DocId := t.map (·.1)

/-- Modelled from the spec: the partial-merge (`doc_as_upsert`) semantics of
the target store, which is external to the repository.  Merging a new body
into an old one keeps the new bindings and every old binding whose field is
not rebound: "if the target document exists, fields are merged". -/
def override (old new : Fields) : Fields :=
  new ++ old.filter (fun e => !(keysOf new).contains e.1)

/-- Modelled from the spec: one `doc_as_upsert` bulk entry applied to the
index, as built by `OpenSearchService.bulkIndex` (src/unnamed/part_000).
If the id exists the bodies are merged, otherwise the document is created. -/
def mergeUpsert (t : Target) (d : Doc) : Target :=
  if (targetIds t).contains d.id then
    t.map (fun e => if e.1 = d.id then (e.1, override e.2 d.fields) else e)
  else
    t ++ [(d.id, d.fields)]

/-- The state effect of `OpenSearchService.bulkIndex` on the target index:
the bulk body lists one update entry per document, in document-list order,
and the store applies them in order. -/
def bulkIndexApply (t : Target) (docs : List Doc) : Target :=
  docs.foldl mergeUpsert t

/-- Outcome of a single item of the bulk response, as inspected by
`bulkIndex`: no `update.error`, a `version_conflict_engine_exception`, or
any other error type. -/
inductive ItemOutcome where
  | ok : ItemOutcome
  | versionConflict : ItemOutcome
  | hardError : ItemOutcome
deriving DecidableEq, Repr

/-- The result object of `OpenSearchService.bulkIndex`. -/
structure BulkResult where
  success : Bool
  processed : Nat
  errors : Nat
  versionConflicts : Nat
deriving DecidableEq, Repr

/-- The return-value computation of `OpenSearchService.bulkIndex`
(src/unnamed/part_000 lines 251-388): an empty document list returns early
with zero processed; otherwise the response items with an error are split
into version conflicts and actual errors, and `processed` is the number of
submitted documents. -/
def bulkIndexResult (documents : List Doc) (items : List ItemOutcome) : BulkResult :=
  if documents.isEmpty then
    { success := true, processed := 0, errors := 0, versionConflicts := 0 }
  else
    let errorItems := items.filter (fun i => !(i == ItemOutcome.ok))
    let versionConflicts := errorItems.filter (fun i => i == ItemOutcome.versionConflict)
    let actualErrors := errorItems.filter (fun i => !(i == ItemOutcome.versionConflict))
    { success := true
      processed := documents.length
      errors := actualErrors.length
      versionConflicts := versionConflicts.length }

/-- Modelled from the spec: the target store client's single-document
delete, external to the repository.  Deleting a present id removes it;
deleting an absent id fails with HTTP status 404. -/
def clientDelete (t : Target) (id : DocId) : Except Nat Target :=
  if (targetIds t).contains id then
    Except.ok (t.filter (fun e => !(e.1 == id)))
  else
    Except.error 404

/-- The repository's `OpenSearchService.deleteDocument`
(src/unnamed/part_000 lines 390-406): a 404 from the client is caught and
reported as success; any other error propagates. -/
def deleteDocument (t : Target) (id : DocId) : Except Nat (Target × Bool) :=
  match clientDelete t id with
  | Except.ok t2 => Except.ok (t2, true)
  | Except.error code =>
      if code = 404 then Except.ok (t, true) else Except.error code

section TargetLemmas

theorem contains_eq_decide_mem (l : List DocId) (x : DocId) :
    l.contains x = decide (x ∈ l) := by
  simp

theorem keys_contains_eq_decide_mem (l : List String) (x : String) :
    l.contains x = decide (x ∈ l) := by
  simp

theorem filter_keys_self (f : Fields) :
    f.filter (fun e => !(keysOf f).contains e.1) = [] := by
  rw [List.filter_eq_nil_iff]
  intro e he
  have hm : e.1 ∈ keysOf f := List.mem_map_of_mem (·.1) he
  simp [keys_contains_eq_decide_mem, hm]

theorem override_self (f : Fields) : override f f = f := by
  unfold override
  rw [filter_keys_self]
  simp

theorem override_override_of_subset (f a b : Fields)
    (h : ∀ k, k ∈ keysOf a → k ∈ keysOf b) :
    override (override f a) b = override f b := by
  unfold override
  rw [List.filter_append, List.filter_filter]
  have ha : a.filter (fun e => !(keysOf b).contains e.1) = [] := by
    rw [List.filter_eq_nil_iff]
    intro e he
    have hm : e.1 ∈ keysOf b := h e.1 (List.mem_map_of_mem (·.1) he)
    simp [keys_contains_eq_decide_mem, hm]
  have hf : (f.filter fun e =>
      !(keysOf b).contains e.1 && !(keysOf a).contains e.1) =
      f.filter (fun e => !(keysOf b).contains e.1) := by
    apply List.filter_congr
    intro e _
    by_cases hb : e.1 ∈ keysOf b
    · simp [keys_contains_eq_decide_mem, hb]
    · have hna : e.1 ∉ keysOf a := fun hx => hb (h e.1 hx)
      simp [keys_contains_eq_decide_mem, hb, hna]
  rw [ha, hf]
  simp

theorem override_override_self (f c : Fields) :
    override (override f c) c = override f c :=
  override_override_of_subset f c c (fun _ h => h)

theorem contains_iff_mem (l : List DocId) (x : DocId) :
    l.contains x = true ↔ x ∈ l := by
  simp

theorem mergeUpsert_of_mem (t : Target) (d : Doc) (h : d.id ∈ targetIds t) :
    mergeUpsert t d =
      t.map (fun e => if e.1 = d.id then (e.1, override e.2 d.fields) else e) := by
  rw [mergeUpsert, if_pos ((contains_iff_mem _ _).mpr h)]

theorem mergeUpsert_of_not_mem (t : Target) (d : Doc) (h : ¬ d.id ∈ targetIds t) :
    mergeUpsert t d = t ++ [(d.id, d.fields)] := by
  rw [mergeUpsert, if_neg (fun hc => h ((contains_iff_mem _ _).mp hc))]

theorem targetIds_mergeUpsert (t : Target) (d : Doc) :
    targetIds (mergeUpsert t d) =
      if d.id ∈ targetIds t then targetIds t else targetIds t ++ [d.id] := by
  by_cases h : d.id ∈ targetIds t
  · rw [mergeUpsert_of_mem t d h, if_pos h]
    simp only [targetIds, List.map_map]
    apply List.map_congr_left
    intro e _
    by_cases he : e.1 = d.id <;> simp [he]
  · rw [mergeUpsert_of_not_mem t d h, if_neg h]
    simp [targetIds]

theorem mem_targetIds_mergeUpsert (t : Target) (d : Doc) (x : DocId) :
    x ∈ targetIds (mergeUpsert t d) ↔ x ∈ targetIds t ∨ x = d.id := by
  rw [targetIds_mergeUpsert]
  by_cases h : d.id ∈ targetIds t
  · simp only [h, if_true]
    constructor
    · exact Or.inl
    · rintro (hx | rfl)
      · exact hx
      · exact h
  · simp [h]

theorem nodup_targetIds_mergeUpsert (t : Target) (d : Doc)
    (h : (targetIds t).Nodup) : (targetIds (mergeUpsert t d)).Nodup := by
  rw [targetIds_mergeUpsert]
  by_cases hc : d.id ∈ targetIds t
  · simpa [hc] using h
  · simp only [hc, if_false]
    rw [List.nodup_append]
    refine ⟨h, List.nodup_singleton _, ?_⟩
    intro x hx
    simp only [List.mem_singleton]
    rintro rfl
    exact hc hx

theorem length_mergeUpsert (t : Target) (d : Doc) :
    (mergeUpsert t d).length =
      if d.id ∈ targetIds t then t.length else t.length + 1 := by
  have hids := targetIds_mergeUpsert t d
  have hlen : (targetIds (mergeUpsert t d)).length = (mergeUpsert t d).length := by
    simp [targetIds]
  by_cases h : d.id ∈ targetIds t
  · simp only [h, if_true] at hids ⊢
    rw [← hlen, hids]
    simp [targetIds]
  · simp only [h, if_false] at hids ⊢
    rw [← hlen, hids]
    simp [targetIds]

theorem map_untouched_of_not_mem (t : Target) (d : Doc)
    (h : ¬ d.id ∈ targetIds t) :
    (t.map fun e => if e.1 = d.id then (e.1, override e.2 d.fields) else e) = t := by
  conv_rhs => rw [← List.map_id t]
  apply List.map_congr_left
  intro e he
  have hne : e.1 ≠ d.id := by
    intro hx
    exact h (hx ▸ List.mem_map_of_mem (·.1) he)
  simp [hne]

/-- C2 helper: merging the same document twice equals merging it once. -/
theorem mergeUpsert_idem (t : Target) (d : Doc) :
    mergeUpsert (mergeUpsert t d) d = mergeUpsert t d := by
  have h2 : d.id ∈ targetIds (mergeUpsert t d) :=
    (mem_targetIds_mergeUpsert t d d.id).mpr (Or.inr rfl)
  rw [mergeUpsert_of_mem _ d h2]
  by_cases h : d.id ∈ targetIds t
  · rw [mergeUpsert_of_mem t d h, List.map_map]
    apply List.map_congr_left
    intro e _
    by_cases he : e.1 = d.id
    · simp [Function.comp, he, override_override_self]
    · simp [Function.comp, he]
  · rw [mergeUpsert_of_not_mem t d h, List.map_append,
      map_untouched_of_not_mem t d h]
    simp [override_self]

end TargetLemmas

/-- C2: applying `bulkUpsert [d]` twice to the target leaves the state
identical to applying it once; each entry is a `doc_as_upsert` partial
merge, so re-delivery of the same document is idempotent. -/
theorem bulkUpsert_idempotent (t : Target) (d : Doc) :
    bulkIndexApply (bulkIndexApply t [d]) [d] = bulkIndexApply t [d] := by
  simp [bulkIndexApply, mergeUpsert_idem]

/-- C9: deleting an id absent from the target reports success rather than
an error; the 404 from the store is caught by `deleteDocument`. -/
theorem deleteDocument_missing_success (t : Target) (id : DocId)
    (h : ¬ id ∈ targetIds t) :
    deleteDocument t id = Except.ok (t, true) := by
  simp [deleteDocument, clientDelete, h]

/-- C9 witness: deleting id 5 from a target holding only id 1 succeeds. -/
theorem deleteDocument_missing_success_witness :
    deleteDocument [(1, [])] 5 = Except.ok ([(1, [])], true) :=
  deleteDocument_missing_success [(1, [])] 5 (by decide)

/-- C10: for a non-empty document list, `bulkIndex` reports `processed`
equal to the number of submitted documents whatever the per-item outcomes;
hard errors and version conflicts are only counted in their own fields. -/
theorem bulkIndex_processed_counts_submitted (documents : List Doc)
    (items : List ItemOutcome) (h : documents ≠ []) :
    (bulkIndexResult documents items).processed = documents.length ∧
    (bulkIndexResult documents items).errors =
      (items.filter (fun i => i == ItemOutcome.hardError)).length ∧
    (bulkIndexResult documents items).versionConflicts =
      (items.filter (fun i => i == ItemOutcome.versionConflict)).length := by
  have hne : documents.isEmpty = false := by
    simpa [List.isEmpty_iff] using h
  refine ⟨?_, ?_, ?_⟩
  · simp [bulkIndexResult, hne]
  · simp only [bulkIndexResult, hne, Bool.false_eq_true, if_false]
    rw [List.filter_filter]
    congr 1
    apply List.filter_congr
    intro i _
    cases i <;> rfl
  · simp only [bulkIndexResult, hne, Bool.false_eq_true, if_false]
    rw [List.filter_filter]
    congr 1
    apply List.filter_congr
    intro i _
    cases i <;> rfl

/-- C10 witness: one submitted document with a hard-error outcome still
counts as processed. -/
theorem bulkIndex_processed_counts_submitted_witness :
    (bulkIndexResult [Doc.mk 0 []] [ItemOutcome.hardError]).processed = 1 ∧
    (bulkIndexResult [Doc.mk 0 []] [ItemOutcome.hardError]).errors =
      ([ItemOutcome.hardError].filter (fun i => i == ItemOutcome.hardError)).length ∧
    (bulkIndexResult [Doc.mk 0 []] [ItemOutcome.hardError]).versionConflicts =
      ([ItemOutcome.hardError].filter (fun i => i == ItemOutcome.versionConflict)).length :=
  bulkIndex_processed_counts_submitted [Doc.mk 0 []] [ItemOutcome.hardError] (by decide)

/-- Kind of a pending operation of the Batch Processor. -/
inductive OpKind where
  | upsert : OpKind
  | delete : OpKind
deriving DecidableEq, Repr

/-- A queued operation of `BulkProcessor`: the document (for deletes, an
object holding only the id) and the operation tag. -/
structure Op where
  document : Doc
  operation : OpKind
deriving DecidableEq, Repr

/-- Mutable state of `BulkProcessor` (src/unnamed/part_002): the pending
queue, the one-flush-at-a-time guard, and the stat counters. -/
structure BPState where
  queue : List Op
  processing : Bool
  statsProcessed : Nat
  statsErrors : Nat
deriving DecidableEq, Repr

/-- Effect of one `deleteDocument` call inside the delete loop: the 404
case is absorbed by `deleteDocument` itself, so both outcomes leave a
total result. -/
def applyDelete (t : Target) (id : DocId) : Target :=
  match deleteDocument t id with
  | Except.ok (t2, _) => t2
  | Except.error _ => t

/-- One attempt of `BulkProcessor.processBatchWithRetry`: split the batch
into non-delete documents and delete ids, send one bulk upsert for the
documents, then one delete call per id.  An attempt is modelled
atomically: when the environment says the adapter threw, the index is left
unchanged (the claims proved below concern the queue and the counters,
which the source updates independently of partial target effects). -/
def attemptBatch (t : Target) (batch : List Op) : Target :=
  let documents := (batch.filter (fun o => !(o.operation == OpKind.delete))).map (·.document)
  let deleteIds := (batch.filter (fun o => o.operation == OpKind.delete)).map (·.document.id)
  deleteIds.foldl applyDelete (bulkIndexApply t documents)

/-- The attempt loop of `BulkProcessor.processBatchWithRetry`: attempts are
numbered from 1; the oracle `succ` says whether all adapter calls of a
given attempt succeed.  On success the batch's effect is applied; when the
attempt budget is exhausted the last error is rethrown.  The exponential
backoff between attempts is a real-time delay and is not modelled. -/
def tryAttempts (succ : Nat → Bool) (t : Target) (batch : List Op) :
    Nat → Nat → Except Unit Target
  | _, 0 => Except.error ()
  | attempt, Nat.succ remaining =>
      if succ attempt then Except.ok (attemptBatch t batch)
      else tryAttempts succ t batch (attempt + 1) remaining

/-- `BulkProcessor.processBatchWithRetry(batch, maxRetries)`. -/
def processBatchWithRetry (succ : Nat → Bool) (t : Target) (batch : List Op)
    (maxRetries : Nat) : Except Unit Target :=
  tryAttempts succ t batch 1 maxRetries

/-- `BulkProcessor.processBatch`: skip when a flush pass is already running
or the queue is empty; otherwise splice off up to `batchSize` operations,
run the retry loop with its default ceiling of 3 attempts, and either
account the batch as processed or re-insert it at the front of the queue
and add its size to the error counter.  The `processing` flag is set for
the duration of the call and cleared in the `finally` block, so it is
false again in the returned state.  The third component reports the batch
handed to the adapter, `none` when the call returned without touching the
adapter. -/
def processBatch (succ : Nat → Bool) (batchSize : Nat) (s : BPState) (t : Target) :
    BPState × Target × Option (List Op) :=
  if s.processing || s.queue.isEmpty then (s, t, none)
  else
    let batch := s.queue.take batchSize
    let rest := s.queue.drop batchSize
    match processBatchWithRetry succ t batch 3 with
    | Except.ok t2 =>
        ({ queue := rest, processing := false,
           statsProcessed := s.statsProcessed + batch.length,
           statsErrors := s.statsErrors }, t2, some batch)
    | Except.error _ =>
        ({ queue := batch ++ rest, processing := false,
           statsProcessed := s.statsProcessed,
           statsErrors := s.statsErrors + batch.length }, t, some batch)

/-- `BulkProcessor.addDocument`: push onto the queue, then process a batch
once the queue has reached the batch size. -/
def addDocument (succ : Nat → Bool) (batchSize : Nat) (s : BPState) (t : Target)
    (document : Doc) (operation : OpKind) : BPState × Target :=
  let s2 : BPState :=
    { s with queue := s.queue ++ [{ document := document, operation := operation }] }
  if batchSize ≤ s2.queue.length then
    let r := processBatch succ batchSize s2 t
    (r.1, r.2.1)
  else
    (s2, t)

/-- `BulkProcessor.addDocuments`: push all, then process a batch once the
queue has reached the batch size. -/
def addDocuments (succ : Nat → Bool) (batchSize : Nat) (s : BPState) (t : Target)
    (documents : List Doc) (operation : OpKind) : BPState × Target :=
  let s2 : BPState :=
    { s with queue :=
        s.queue ++ documents.map (fun d => { document := d, operation := operation }) }
  if batchSize ≤ s2.queue.length then
    let r := processBatch succ batchSize s2 t
    (r.1, r.2.1)
  else
    (s2, t)

/-- `BulkProcessor.flush`: loop `processBatch` while the queue is nonempty.
In JavaScript the loop is unbounded; the model indexes it by fuel, so a
run that would spin forever returns the state reached when the fuel is
exhausted. -/
def flush (succ : Nat → Bool) (batchSize : Nat) :
    Nat → BPState → Target → BPState × Target
  | 0, s, t => (s, t)
  | Nat.succ fuel, s, t =>
      if s.queue.isEmpty then (s, t)
      else
        let r := processBatch succ batchSize s t
        flush succ batchSize fuel r.1 r.2.1

section BatchLemmas

theorem filter_keys_subset_nil (a b : Fields)
    (h : ∀ k, k ∈ keysOf a → k ∈ keysOf b) :
    a.filter (fun e => !(keysOf b).contains e.1) = [] := by
  rw [List.filter_eq_nil_iff]
  intro e he
  have hm : e.1 ∈ keysOf b := h e.1 (List.mem_map_of_mem (·.1) he)
  simp [keys_contains_eq_decide_mem, hm]

theorem override_of_subset (a b : Fields)
    (h : ∀ k, k ∈ keysOf a → k ∈ keysOf b) :
    override a b = b := by
  unfold override
  rw [filter_keys_subset_nil a b h]
  simp

/-- C7 helper: two merge-upserts to the same id collapse to the second one
when the second body binds every field the first one binds. -/
theorem mergeUpsert_last_wins (t : Target) (d1 d2 : Doc) (hid : d1.id = d2.id)
    (hdom : ∀ k, k ∈ keysOf d1.fields → k ∈ keysOf d2.fields) :
    mergeUpsert (mergeUpsert t d1) d2 = mergeUpsert t d2 := by
  obtain ⟨i1, c1⟩ := d1
  obtain ⟨i2, c2⟩ := d2
  change i1 = i2 at hid
  subst hid
  change ∀ k, k ∈ keysOf c1 → k ∈ keysOf c2 at hdom
  by_cases h : i1 ∈ targetIds t
  · have h2 : i1 ∈ targetIds (mergeUpsert t ⟨i1, c1⟩) :=
      (mem_targetIds_mergeUpsert t ⟨i1, c1⟩ i1).mpr (Or.inl h)
    rw [mergeUpsert_of_mem _ ⟨i1, c2⟩ h2, mergeUpsert_of_mem t ⟨i1, c1⟩ h,
      mergeUpsert_of_mem t ⟨i1, c2⟩ h, List.map_map]
    apply List.map_congr_left
    intro x _
    by_cases hx : x.1 = i1
    · simp [Function.comp, hx, override_override_of_subset _ _ _ hdom]
    · simp [Function.comp, hx]
  · have h2 : i1 ∈ targetIds (mergeUpsert t ⟨i1, c1⟩) :=
      (mem_targetIds_mergeUpsert t ⟨i1, c1⟩ i1).mpr (Or.inr rfl)
    rw [mergeUpsert_of_mem _ ⟨i1, c2⟩ h2, mergeUpsert_of_not_mem t ⟨i1, c1⟩ h,
      mergeUpsert_of_not_mem t ⟨i1, c2⟩ h, List.map_append,
      map_untouched_of_not_mem t ⟨i1, c2⟩ h]
    simp [override_of_subset _ _ hdom]

theorem tryAttempts_allfail (succ : Nat → Bool) (t : Target) (batch : List Op)
    (hfail : ∀ n, succ n = false) :
    ∀ a r, tryAttempts succ t batch a r = Except.error () := by
  intro a r
  induction r generalizing a with
  | zero => rfl
  | succ r ih => rw [tryAttempts, hfail a, if_neg (by simp)]; exact ih (a + 1)

theorem processBatch_allfail (succ : Nat → Bool) (batchSize : Nat)
    (s : BPState) (t : Target)
    (hfail : ∀ n, succ n = false) (hp : s.processing = false) (hq : s.queue ≠ []) :
    processBatch succ batchSize s t =
      ({ queue := s.queue.take batchSize ++ s.queue.drop batchSize,
         processing := false,
         statsProcessed := s.statsProcessed,
         statsErrors := s.statsErrors + (s.queue.take batchSize).length }, t,
        some (s.queue.take batchSize)) := by
  have hqe : s.queue.isEmpty = false := by simpa [List.isEmpty_iff] using hq
  have hpr : processBatchWithRetry succ t (s.queue.take batchSize) 3 = Except.error () := by
    rw [processBatchWithRetry]
    exact tryAttempts_allfail succ t _ hfail 1 3
  simp [processBatch, hp, hqe, hpr]

theorem flush_allfail_target_fixed (succ : Nat → Bool) (batchSize : Nat)
    (t : Target) (hfail : ∀ n, succ n = false) :
    ∀ fuel (s : BPState), s.processing = false →
      (flush succ batchSize fuel s t).2 = t := by
  intro fuel
  induction fuel with
  | zero => intro s _; rfl
  | succ fuel ih =>
      intro s hp
      rw [flush]
      by_cases hq : s.queue = []
      · rw [if_pos (by simp [hq])]
      · rw [if_neg (by simp [List.isEmpty_iff, hq]),
          processBatch_allfail succ batchSize s t hfail hp hq]
        exact ih _ rfl

theorem bulkIndexApply_append (t : Target) (a b : List Doc) :
    bulkIndexApply t (a ++ b) = bulkIndexApply (bulkIndexApply t a) b := by
  simp [bulkIndexApply]

theorem attemptBatch_upserts (t : Target) (batch : List Op)
    (h : ∀ o ∈ batch, o.operation = OpKind.upsert) :
    attemptBatch t batch = bulkIndexApply t (batch.map (·.document)) := by
  unfold attemptBatch
  have h1 : batch.filter (fun o => !(o.operation == OpKind.delete)) = batch := by
    rw [List.filter_eq_self]
    intro o ho
    rw [h o ho]
    rfl
  have h2 : batch.filter (fun o => o.operation == OpKind.delete) = [] := by
    rw [List.filter_eq_nil_iff]
    intro o ho
    rw [h o ho]
    simp
  rw [h1, h2]
  rfl

theorem processBatch_success (succ : Nat → Bool) (batchSize : Nat)
    (s : BPState) (t : Target)
    (h1 : succ 1 = true) (hp : s.processing = false) (hq : s.queue ≠ []) :
    processBatch succ batchSize s t =
      ({ queue := s.queue.drop batchSize, processing := false,
         statsProcessed := s.statsProcessed + (s.queue.take batchSize).length,
         statsErrors := s.statsErrors },
        attemptBatch t (s.queue.take batchSize),
        some (s.queue.take batchSize)) := by
  have hqe : s.queue.isEmpty = false := by simpa [List.isEmpty_iff] using hq
  have hpr : processBatchWithRetry succ t (s.queue.take batchSize) 3 =
      Except.ok (attemptBatch t (s.queue.take batchSize)) := by
    rw [processBatchWithRetry]
    show tryAttempts succ t (s.queue.take batchSize) 1 (Nat.succ 2) =
      Except.ok (attemptBatch t (s.queue.take batchSize))
    rw [tryAttempts, if_pos h1]
  simp [processBatch, hp, hqe, hpr]

theorem flush_success_upserts (succ : Nat → Bool) (hsucc : succ 1 = true)
    (batchSize : Nat) (hbs : 1 ≤ batchSize) :
    ∀ (fuel : Nat) (q : List Op), q.length ≤ fuel →
      (∀ o ∈ q, o.operation = OpKind.upsert) → ∀ (p e : Nat) (t : Target),
      (flush succ batchSize fuel (BPState.mk q false p e) t).2 =
        bulkIndexApply t (q.map (·.document)) := by
  intro fuel
  induction fuel with
  | zero =>
      intro q hlen hup p e t
      have hq : q = [] := List.eq_nil_of_length_eq_zero (Nat.le_zero.mp hlen)
      subst hq
      rfl
  | succ fuel ih =>
      intro q hlen hup p e t
      by_cases hq : q = []
      · subst hq
        rfl
      · rw [flush, if_neg (by simp [List.isEmpty_iff, hq])]
        rw [processBatch_success succ batchSize _ t hsucc rfl hq]
        rw [attemptBatch_upserts t (q.take batchSize)
          (fun o ho => hup o (List.mem_of_mem_take ho))]
        have hlen2 : (q.drop batchSize).length ≤ fuel := by
          have hpos : 1 ≤ q.length := by
            cases hql : q with
            | nil => exact absurd hql hq
            | cons a l => simp [hql]
          rw [List.length_drop]
          omega
        rw [ih (q.drop batchSize) hlen2
          (fun o ho => hup o (List.mem_of_mem_drop ho)) _ _ _]
        rw [← bulkIndexApply_append, ← List.map_append, List.take_append_drop]

end BatchLemmas

/-- C4: when the adapter fails every call, the 3-attempt retry loop throws,
`processBatch` catches the error, re-inserts the whole batch at the front
of the queue ahead of the not-yet-processed rest, adds the batch size to
the error counter, and `flush` never lets the failure escape or touch the
target. -/
theorem retry_exhaustion_requeues (succ : Nat → Bool) (batchSize : Nat)
    (s : BPState) (t : Target)
    (hfail : ∀ n, succ n = false) (hp : s.processing = false) (hq : s.queue ≠ []) :
    processBatchWithRetry succ t (s.queue.take batchSize) 3 = Except.error () ∧
    processBatch succ batchSize s t =
      ({ queue := s.queue.take batchSize ++ s.queue.drop batchSize,
         processing := false,
         statsProcessed := s.statsProcessed,
         statsErrors := s.statsErrors + (s.queue.take batchSize).length }, t,
        some (s.queue.take batchSize)) ∧
    (∀ fuel, (flush succ batchSize fuel s t).2 = t) := by
  refine ⟨?_, processBatch_allfail succ batchSize s t hfail hp hq, ?_⟩
  · rw [processBatchWithRetry, tryAttempts_allfail succ t _ hfail]
  · intro fuel
    exact flush_allfail_target_fixed succ batchSize t hfail fuel s hp

/-- C4 witness: a single queued upsert against an always-failing adapter is
re-queued with the error counter incremented, and the target is untouched. -/
theorem retry_exhaustion_requeues_witness :
    processBatch (fun _ => false) 2
      { queue := [{ document := Doc.mk 0 [], operation := OpKind.upsert }],
        processing := false, statsProcessed := 0, statsErrors := 0 } [] =
      ({ queue := [{ document := Doc.mk 0 [], operation := OpKind.upsert }],
         processing := false, statsProcessed := 0, statsErrors := 1 }, [],
        some [{ document := Doc.mk 0 [], operation := OpKind.upsert }]) := by
  have h := retry_exhaustion_requeues (fun _ => false) 2
    { queue := [{ document := Doc.mk 0 [], operation := OpKind.upsert }],
      processing := false, statsProcessed := 0, statsErrors := 0 } []
    (fun _ => rfl) rfl (by decide)
  simpa using h.2.1

/-- C6: a flush pass never detaches fewer than 1 or more than `batchSize`
operations: on an empty queue it returns without an adapter call, and
otherwise it hands the adapter the first `min batchSize queueLength`
operations while the operations beyond `batchSize` stay queued. -/
theorem processBatch_batch_bound (succ : Nat → Bool) (batchSize : Nat)
    (s : BPState) (t : Target) (hp : s.processing = false) (hbs : 1 ≤ batchSize) :
    (s.queue = [] → processBatch succ batchSize s t = (s, t, none)) ∧
    (s.queue ≠ [] →
      (processBatch succ batchSize s t).2.2 = some (s.queue.take batchSize) ∧
      1 ≤ (s.queue.take batchSize).length ∧
      (s.queue.take batchSize).length ≤ batchSize ∧
      ((processBatch succ batchSize s t).1.queue = s.queue.drop batchSize ∨
       (processBatch succ batchSize s t).1.queue =
         s.queue.take batchSize ++ s.queue.drop batchSize)) := by
  constructor
  · intro hq
    rw [processBatch, if_pos (by simp [hq])]
  · intro hq
    have hqe : s.queue.isEmpty = false := by simpa [List.isEmpty_iff] using hq
    have hlen : 1 ≤ s.queue.length := by
      cases hql : s.queue with
      | nil => exact absurd hql hq
      | cons a l => simp [hql]
    have htake : (s.queue.take batchSize).length = min batchSize s.queue.length :=
      List.length_take _ _
    cases hpr : processBatchWithRetry succ t (s.queue.take batchSize) 3 with
    | ok t2 =>
        have hres : processBatch succ batchSize s t =
            ({ queue := s.queue.drop batchSize, processing := false,
               statsProcessed := s.statsProcessed + (s.queue.take batchSize).length,
               statsErrors := s.statsErrors }, t2, some (s.queue.take batchSize)) := by
          simp [processBatch, hp, hqe, hpr]
        rw [hres]
        refine ⟨rfl, ?_, ?_, Or.inl rfl⟩
        · rw [htake]; omega
        · rw [htake]; omega
    | error err =>
        have hres : processBatch succ batchSize s t =
            ({ queue := s.queue.take batchSize ++ s.queue.drop batchSize,
               processing := false,
               statsProcessed := s.statsProcessed,
               statsErrors := s.statsErrors + (s.queue.take batchSize).length }, t,
              some (s.queue.take batchSize)) := by
          simp [processBatch, hp, hqe, hpr]
        rw [hres]
        refine ⟨rfl, ?_, ?_, Or.inr rfl⟩
        · rw [htake]; omega
        · rw [htake]; omega

/-- C6 witness: with batch size 2 and three queued upserts, the pass sends
exactly the first two operations and leaves the third queued. -/
theorem processBatch_batch_bound_witness :
    ((⟨[{ document := Doc.mk 0 [], operation := OpKind.upsert },
        { document := Doc.mk 1 [], operation := OpKind.upsert },
        { document := Doc.mk 2 [], operation := OpKind.upsert }],
       false, 0, 0⟩ : BPState).queue ≠ []) ∧
    (processBatch (fun _ => true) 2
      ⟨[{ document := Doc.mk 0 [], operation := OpKind.upsert },
        { document := Doc.mk 1 [], operation := OpKind.upsert },
        { document := Doc.mk 2 [], operation := OpKind.upsert }],
       false, 0, 0⟩ []).2.2 =
      some [{ document := Doc.mk 0 [], operation := OpKind.upsert },
            { document := Doc.mk 1 [], operation := OpKind.upsert }] := by
  have h := processBatch_batch_bound (fun _ => true) 2
    ⟨[{ document := Doc.mk 0 [], operation := OpKind.upsert },
      { document := Doc.mk 1 [], operation := OpKind.upsert },
      { document := Doc.mk 2 [], operation := OpKind.upsert }],
     false, 0, 0⟩ [] rfl (by omega)
  refine ⟨by decide, ?_⟩
  have h2 := (h.2 (by decide)).1
  simpa using h2

/-- C7: two updates to the same id queued in order and then flushed leave
the target exactly as if only the second update had been applied, because
the processor preserves queue order when building the bulk request; the
hypothesis that the second body binds every field of the first reflects
that both bulk entries carry the same full projected field list. -/
theorem update_ordering_per_id (succ : Nat → Bool) (batchSize : Nat)
    (t : Target) (d1 d2 : Doc) (p e : Nat)
    (hsucc : ∀ n, succ n = true) (hbs : 1 ≤ batchSize)
    (hid : d1.id = d2.id)
    (hdom : ∀ k, k ∈ keysOf d1.fields → k ∈ keysOf d2.fields) :
    (flush succ batchSize 2
      { queue := [{ document := d1, operation := OpKind.upsert },
                  { document := d2, operation := OpKind.upsert }],
        processing := false, statsProcessed := p, statsErrors := e } t).2 =
      mergeUpsert t d2 := by
  have hflush := flush_success_upserts succ (hsucc 1) batchSize hbs 2
    [{ document := d1, operation := OpKind.upsert },
     { document := d2, operation := OpKind.upsert }]
    (by simp)
    (by
      intro o ho
      rcases List.mem_cons.mp ho with rfl | ho2
      · rfl
      · rcases List.mem_cons.mp ho2 with rfl | ho3
        · rfl
        · cases ho3)
    p e t
  rw [hflush]
  show mergeUpsert (mergeUpsert t d1) d2 = mergeUpsert t d2
  exact mergeUpsert_last_wins t d1 d2 hid hdom

/-- C7 witness: updates writing field a to 1 and then to 2 for id 0 leave
the target storing 2. -/
theorem update_ordering_per_id_witness :
    (flush (fun _ => true) 100 2
      { queue := [{ document := Doc.mk 0 [("a", 1)], operation := OpKind.upsert },
                  { document := Doc.mk 0 [("a", 2)], operation := OpKind.upsert }],
        processing := false, statsProcessed := 0, statsErrors := 0 } []).2 =
      mergeUpsert [] (Doc.mk 0 [("a", 2)]) :=
  update_ordering_per_id (fun _ => true) 100 [] (Doc.mk 0 [("a", 1)])
    (Doc.mk 0 [("a", 2)]) 0 0 (fun _ => rfl) (by omega) rfl
    (by intro k hk; simpa [keysOf] using hk)

/-- State of the two stores as seen by the Reconciliation Engine: the
MongoDB collection contents and the OpenSearch index contents. -/
structure SyncState where
  source : List Doc
  target : Target
deriving DecidableEq, Repr

/-- The result object of `ReconciliationService.checkAndSync` and
`syncMissingDocuments`.  The JavaScript result objects carry different
field sets on different paths, so fields absent from a path are `none`. -/
structure ReconciliationResult where
  success : Bool
  inSync : Bool
  mongoCount : Option Nat
  opensearchCount : Option Nat
  difference : Option Int
  synced : Nat
  missingCount : Option Nat
  orphanedDocs : Option Nat
deriving DecidableEq, Repr

/-- The source-side id projection (`find({}, projection _id only)`) of
`syncMissingDocuments`.  MongoDB enforces `_id` uniqueness, so the JS Set
built from this list never drops anything; theorems carry the Nodup
invariant as a hypothesis. -/
def sourceIds (st : SyncState) : List DocId := st.source.map (·.id)

/-- `ReconciliationService.getAllOpenSearchIds`: the search-after paginated
scan collects exactly the ids present in the index. -/
def getAllOpenSearchIds (st : SyncState) : List DocId := targetIds st.target

/-- The in-memory set difference computed by `syncMissingDocuments`:
source ids that the target scan did not return, in source order. -/
def missingIds (st : SyncState) : List DocId :=
  (sourceIds st).filter (fun id => !(getAllOpenSearchIds st).contains id)

/-- `ReconciliationService.syncDocumentsByIds` (src/src/services/
reconciliationService.js lines 212-260): walk the ids in batches of 100,
fetch the matching documents from the source, bulk-upsert each non-empty
batch into the target, and add every fetched batch's size to the synced
count.  Bulk-response errors are only logged, and the inter-batch delay is
real time, so neither appears in the model. -/
def syncDocumentsByIds (st : SyncState) (ids : List DocId) : SyncState × Nat :=
  if h : ids.isEmpty then (st, 0)
  else
    let batchIds := ids.take 100
    let rest := ids.drop 100
    let documents := st.source.filter (fun d => batchIds.contains d.id)
    let st2 : SyncState :=
      if documents.isEmpty then st
      else { st with target := bulkIndexApply st.target documents }
    let res := syncDocumentsByIds st2 rest
    (res.1, documents.length + res.2)
termination_by ids.length
decreasing_by
  have hne : ids ≠ [] := by simpa [List.isEmpty_iff] using h
  have hpos : 0 < ids.length := List.length_pos.mpr hne
  simp only [List.length_drop]
  omega

/-- `ReconciliationService.syncMissingDocuments` (lines 110-166): compute
the id sets and their difference; when nothing is missing report in-sync
with zero synced, otherwise repair by batches and report the missing
count. -/
def syncMissingDocuments (st : SyncState) : SyncState × ReconciliationResult :=
  let missing := missingIds st
  if missing.isEmpty then
    (st,
      { success := true, inSync := true, mongoCount := none,
        opensearchCount := none, difference := none, synced := 0,
        missingCount := some 0, orphanedDocs := none })
  else
    let res := syncDocumentsByIds st missing
    (res.1,
      { success := true, inSync := true, mongoCount := none,
        opensearchCount := none, difference := none, synced := res.2,
        missingCount := some missing.length, orphanedDocs := none })

/-- `ReconciliationService.checkAndSync` (lines 54-108) for a running
service: compare the two counts; equal counts are the cheap in-sync path,
a positive difference triggers the missing-document repair, and a negative
one is logged as orphaned drift and returns with nothing synced. -/
def checkAndSync (st : SyncState) : SyncState × ReconciliationResult :=
  let mongoCount := st.source.length
  let osCount := st.target.length
  let difference : Int := (mongoCount : Int) - (osCount : Int)
  if difference = 0 then
    (st,
      { success := true, inSync := true, mongoCount := some mongoCount,
        opensearchCount := some osCount, difference := some 0, synced := 0,
        missingCount := none, orphanedDocs := none })
  else if 0 < difference then
    syncMissingDocuments st
  else
    (st,
      { success := true, inSync := false, mongoCount := some mongoCount,
        opensearchCount := some osCount, difference := some difference,
        synced := 0, missingCount := none,
        orphanedDocs := some difference.natAbs })

/-- The result object of `DocumentCountMonitor.performCountCheck`; the
timestamp and running totals are omitted. -/
structure CountCheckResult where
  mongodb : Nat
  opensearch : Nat
  difference : Nat
  isMatch : Bool
deriving DecidableEq, Repr

/-- `DocumentCountMonitor.performCountCheck` (src/src/services/
documentCountMonitor.js lines 75-125): compare the raw counts; on a
mismatch the diagnostics are logged and the full sync is triggered exactly
when auto-sync is enabled and the absolute difference exceeds the
threshold.  The second component records whether `triggerAutoSync` was
invoked. -/
def performCountCheck (mongoCount opensearchCount : Nat)
    (autoSyncEnabled : Bool) (autoSyncThreshold : Nat) :
    CountCheckResult × Bool :=
  let difference := ((mongoCount : Int) - (opensearchCount : Int)).natAbs
  if difference = 0 then
    ({ mongodb := mongoCount, opensearch := opensearchCount,
       difference := difference, isMatch := true }, false)
  else
    ({ mongodb := mongoCount, opensearch := opensearchCount,
       difference := difference, isMatch := false },
      autoSyncEnabled && decide (autoSyncThreshold < difference))

/-- C5: when the target count exceeds the source count, checkAndSync
performs no repair and never deletes: the store state is returned
unchanged and the result only reports the orphan count with zero synced
and inSync false. -/
theorem orphan_drift_never_deletes (st : SyncState)
    (h : st.source.length < st.target.length) :
    checkAndSync st =
      (st,
        { success := true, inSync := false,
          mongoCount := some st.source.length,
          opensearchCount := some st.target.length,
          difference := some ((st.source.length : Int) - (st.target.length : Int)),
          synced := 0, missingCount := none,
          orphanedDocs := some (st.target.length - st.source.length) }) := by
  have h0 : ¬ ((st.source.length : Int) - (st.target.length : Int) = 0) := by omega
  have h1 : ¬ (0 < (st.source.length : Int) - (st.target.length : Int)) := by omega
  have habs : ((st.source.length : Int) - (st.target.length : Int)).natAbs =
      st.target.length - st.source.length := by omega
  simp [checkAndSync, h0, h1, habs]

/-- C5 witness: an empty source against a one-document target reports one
orphan and leaves the target document in place. -/
theorem orphan_drift_never_deletes_witness :
    checkAndSync (SyncState.mk [] [(0, [])]) =
      (SyncState.mk [] [(0, [])],
        { success := true, inSync := false, mongoCount := some 0,
          opensearchCount := some 1, difference := some (-1), synced := 0,
          missingCount := none, orphanedDocs := some 1 }) := by
  have h := orphan_drift_never_deletes (SyncState.mk [] [(0, [])]) (by decide)
  simpa using h

/-- C8: equal counts make the count check report a match and never invoke
the Full Sync Driver; in general the full sync is triggered exactly when
the counts mismatch, auto-sync is enabled, and the absolute difference
exceeds the threshold. -/
theorem drift_noop_on_equal_counts (n : Nat) (autoSyncEnabled : Bool)
    (threshold : Nat) :
    ((performCountCheck n n autoSyncEnabled threshold).1.isMatch = true ∧
     (performCountCheck n n autoSyncEnabled threshold).2 = false) ∧
    (∀ m o : Nat,
      ((performCountCheck m o autoSyncEnabled threshold).2 = true ↔
        m ≠ o ∧ autoSyncEnabled = true ∧
          threshold < ((m : Int) - (o : Int)).natAbs)) := by
  constructor
  · have hz : ((n : Int) - (n : Int)).natAbs = 0 := by omega
    constructor <;> simp [performCountCheck, hz]
  · intro m o
    by_cases hz : ((m : Int) - (o : Int)).natAbs = 0
    · have hmo : m = o := by omega
      simp [performCountCheck, hz, hmo]
    · have hmo : ¬ m = o := by omega
      simp [performCountCheck, hz, hmo]

/-- C8 witness: counts 7 and 7 match without triggering the driver, and
counts 9 and 3 with threshold 3 trigger it. -/
theorem drift_noop_on_equal_counts_witness :
    (performCountCheck 7 7 true 3).1.isMatch = true ∧
    (performCountCheck 7 7 true 3).2 = false ∧
    (performCountCheck 9 3 true 3).2 = true := by
  have h := drift_noop_on_equal_counts 7 true 3
  refine ⟨h.1.1, h.1.2, ?_⟩
  exact (h.2 9 3).mpr ⟨by decide, rfl, by decide⟩

section ReconLemmas

theorem targetIds_length (t : Target) : (targetIds t).length = t.length := by
  simp [targetIds]

theorem length_eq_of_nodup_same_mem (a b : List DocId) (ha : a.Nodup) (hb : b.Nodup)
    (h : ∀ x, x ∈ a ↔ x ∈ b) : a.length = b.length := by
  rw [← List.toFinset_card_of_nodup ha, ← List.toFinset_card_of_nodup hb]
  congr 1
  ext x
  simp [List.mem_toFinset, h x]

theorem length_filter_bool_split (l : List DocId) (p : DocId → Bool) :
    (l.filter p).length + (l.filter (fun x => !(p x))).length = l.length := by
  induction l with
  | nil => rfl
  | cons a l ih =>
      by_cases hp : p a <;> simp [List.filter_cons, hp] <;> omega

theorem length_filter_or_disjoint (l : List Doc) (p q : Doc → Bool)
    (hdisj : ∀ d ∈ l, ¬(p d = true ∧ q d = true)) :
    (l.filter p).length + (l.filter q).length =
      (l.filter (fun d => p d || q d)).length := by
  induction l with
  | nil => rfl
  | cons a l ih =>
      have hd2 : ∀ d ∈ l, ¬(p d = true ∧ q d = true) :=
        fun d hd => hdisj d (List.mem_cons_of_mem _ hd)
      have ih2 := ih hd2
      cases hp : p a <;> cases hq : q a
      · simp only [List.filter_cons, hp, hq, Bool.or_self, Bool.false_eq_true, if_false]
        omega
      · simp [List.filter_cons, hp, hq]
        omega
      · simp [List.filter_cons, hp, hq]
        omega
      · exact absurd ⟨hp, hq⟩ (hdisj a (List.mem_cons_self a l))

theorem contains_take_or_drop (ids : List DocId) (n : Nat) (x : DocId) :
    (((ids.take n).contains x) || ((ids.drop n).contains x)) = ids.contains x := by
  have hsplit : x ∈ ids ↔ x ∈ ids.take n ∨ x ∈ ids.drop n := by
    conv_lhs => rw [← List.take_append_drop n ids]
    exact List.mem_append
  by_cases h1 : x ∈ ids.take n <;> by_cases h2 : x ∈ ids.drop n <;>
    simp [contains_eq_decide_mem, h1, h2, hsplit]

theorem mem_targetIds_bulkIndexApply (docs : List Doc) :
    ∀ (t : Target) (x : DocId),
      x ∈ targetIds (bulkIndexApply t docs) ↔
        x ∈ targetIds t ∨ x ∈ docs.map (·.id) := by
  induction docs with
  | nil => intro t x; simp [bulkIndexApply]
  | cons d ds ih =>
      intro t x
      have hstep : bulkIndexApply t (d :: ds) = bulkIndexApply (mergeUpsert t d) ds := rfl
      rw [hstep, ih (mergeUpsert t d) x, mem_targetIds_mergeUpsert]
      simp only [List.map_cons, List.mem_cons]
      tauto

theorem nodup_targetIds_bulkIndexApply (docs : List Doc) :
    ∀ t : Target, (targetIds t).Nodup → (targetIds (bulkIndexApply t docs)).Nodup := by
  induction docs with
  | nil => intro t h; exact h
  | cons d ds ih =>
      intro t h
      exact ih (mergeUpsert t d) (nodup_targetIds_mergeUpsert t d h)

theorem mem_map_id_filter (l : List Doc) (q : DocId → Bool) (x : DocId) :
    x ∈ (l.filter (fun d => q d.id)).map (·.id) ↔ x ∈ l.map (·.id) ∧ q x = true := by
  simp only [List.mem_map, List.mem_filter]
  constructor
  · rintro ⟨d, ⟨hdl, hq⟩, rfl⟩
    exact ⟨⟨d, hdl, rfl⟩, hq⟩
  · rintro ⟨⟨d, hdl, rfl⟩, hq⟩
    exact ⟨d, ⟨hdl, hq⟩, rfl⟩

theorem length_filter_id (l : List Doc) (q : DocId → Bool) :
    (l.filter (fun d => q d.id)).length = ((l.map (·.id)).filter q).length := by
  rw [List.filter_map, List.length_map]
  rfl

theorem syncDocumentsByIds_spec (st : SyncState) (ids : List DocId) :
    (syncDocumentsByIds st ids).1.source = st.source ∧
    (∀ x, x ∈ targetIds (syncDocumentsByIds st ids).1.target ↔
      x ∈ targetIds st.target ∨ (x ∈ ids ∧ x ∈ sourceIds st)) ∧
    ((targetIds st.target).Nodup →
      (targetIds (syncDocumentsByIds st ids).1.target).Nodup) ∧
    (ids.Nodup → (syncDocumentsByIds st ids).2 =
      (st.source.filter (fun d => ids.contains d.id)).length) := by
  rw [syncDocumentsByIds]
  by_cases h : ids.isEmpty
  · rw [dif_pos h]
    have hnil : ids = [] := List.isEmpty_iff.mp h
    subst hnil
    refine ⟨rfl, ?_, fun hn => hn, ?_⟩
    · intro x
      simp
    · intro _
      simp
  · rw [dif_neg h]
    dsimp only []
    have hsplit : ∀ x : DocId, x ∈ ids ↔ x ∈ ids.take 100 ∨ x ∈ ids.drop 100 := by
      intro x
      conv_lhs => rw [← List.take_append_drop 100 ids]
      exact List.mem_append
    have hcount : ids.Nodup →
        (st.source.filter (fun d => (ids.take 100).contains d.id)).length +
          (st.source.filter (fun d => (ids.drop 100).contains d.id)).length =
          (st.source.filter (fun d => ids.contains d.id)).length := by
      intro hnd
      have hnodups := hnd
      rw [← List.take_append_drop 100 ids, List.nodup_append] at hnodups
      have hdisj : ∀ d ∈ st.source,
          ¬((ids.take 100).contains d.id = true ∧
            (ids.drop 100).contains d.id = true) := by
        intro d _ hcon
        have h1 : d.id ∈ ids.take 100 := by
          have hx := hcon.1
          rw [contains_eq_decide_mem] at hx
          simpa using hx
        have h2 : d.id ∈ ids.drop 100 := by
          have hx := hcon.2
          rw [contains_eq_decide_mem] at hx
          simpa using hx
        exact hnodups.2.2 h1 h2
      have hcomb := length_filter_or_disjoint st.source
        (fun d => (ids.take 100).contains d.id)
        (fun d => (ids.drop 100).contains d.id) hdisj
      have hcongr : (st.source.filter (fun d =>
          (ids.take 100).contains d.id || (ids.drop 100).contains d.id)) =
          st.source.filter (fun d => ids.contains d.id) := by
        apply List.filter_congr
        intro d _
        rw [contains_take_or_drop]
      rw [hcongr] at hcomb
      exact hcomb
    have hnd2 : ids.Nodup → (ids.drop 100).Nodup := by
      intro hnd
      have hx := hnd
      rw [← List.take_append_drop 100 ids, List.nodup_append] at hx
      exact hx.2.1
    by_cases hd : (st.source.filter (fun d => (ids.take 100).contains d.id)).isEmpty
    · rw [if_pos hd]
      have hdn : st.source.filter (fun d => (ids.take 100).contains d.id) = [] :=
        List.isEmpty_iff.mp hd
      have hnone : ∀ x : DocId, x ∈ ids.take 100 → ¬ x ∈ sourceIds st := by
        intro x hxt hxS
        obtain ⟨d, hdl, hdx⟩ := List.mem_map.mp hxS
        have hdmem : d ∈ st.source.filter (fun d2 => (ids.take 100).contains d2.id) := by
          rw [List.mem_filter]
          refine ⟨hdl, ?_⟩
          rw [hdx, contains_eq_decide_mem]
          simpa using hxt
        rw [hdn] at hdmem
        cases hdmem
      obtain ⟨ih1, ih2, ih3, ih4⟩ := syncDocumentsByIds_spec st (ids.drop 100)
      refine ⟨ih1, ?_, ih3, ?_⟩
      · intro x
        rw [ih2 x]
        constructor
        · rintro (hxT | ⟨hxd, hxS⟩)
          · exact Or.inl hxT
          · exact Or.inr ⟨(hsplit x).mpr (Or.inr hxd), hxS⟩
        · rintro (hxT | ⟨hxi, hxS⟩)
          · exact Or.inl hxT
          · rcases (hsplit x).mp hxi with hxt | hxd
            · exact absurd hxS (hnone x hxt)
            · exact Or.inr ⟨hxd, hxS⟩
      · intro hnd
        rw [ih4 (hnd2 hnd), ← hcount hnd]
    · rw [if_neg hd]
      obtain ⟨ih1, ih2, ih3, ih4⟩ := syncDocumentsByIds_spec
        (SyncState.mk st.source (bulkIndexApply st.target (st.source.filter (fun d => (ids.take 100).contains d.id)))) (ids.drop 100)
      have hstrec : ({ st with target := bulkIndexApply st.target (st.source.filter (fun d => (ids.take 100).contains d.id)) } : SyncState) = SyncState.mk st.source (bulkIndexApply st.target (st.source.filter (fun d => (ids.take 100).contains d.id))) := rfl
      rw [hstrec]
      refine ⟨ih1, ?_, ?_, ?_⟩
      · intro x
        rw [ih2 x]
        have hbmem : x ∈ targetIds (bulkIndexApply st.target
            (st.source.filter (fun d => (ids.take 100).contains d.id))) ↔
            x ∈ targetIds st.target ∨ (x ∈ ids.take 100 ∧ x ∈ sourceIds st) := by
          rw [mem_targetIds_bulkIndexApply]
          constructor
          · rintro (hxT | hxm)
            · exact Or.inl hxT
            · rcases (mem_map_id_filter st.source
                (fun y => (ids.take 100).contains y) x).mp hxm with ⟨hxS, hxc⟩
              rw [contains_eq_decide_mem] at hxc
              exact Or.inr ⟨by simpa using hxc, hxS⟩
          · rintro (hxT | ⟨hxt, hxS⟩)
            · exact Or.inl hxT
            · refine Or.inr ((mem_map_id_filter st.source
                (fun y => (ids.take 100).contains y) x).mpr ⟨hxS, ?_⟩)
              rw [contains_eq_decide_mem]
              simpa using hxt
        rw [show targetIds (SyncState.mk st.source (bulkIndexApply st.target (st.source.filter (fun d => (ids.take 100).contains d.id)))).target = targetIds (bulkIndexApply st.target (st.source.filter (fun d => (ids.take 100).contains d.id))) from rfl]
        rw [hbmem]
        rw [show sourceIds (SyncState.mk st.source (bulkIndexApply st.target (st.source.filter (fun d => (ids.take 100).contains d.id)))) = sourceIds st from rfl]
        constructor
        · rintro ((hxT | ⟨hxt, hxS⟩) | ⟨hxd, hxS⟩)
          · exact Or.inl hxT
          · exact Or.inr ⟨(hsplit x).mpr (Or.inl hxt), hxS⟩
          · exact Or.inr ⟨(hsplit x).mpr (Or.inr hxd), hxS⟩
        · rintro (hxT | ⟨hxi, hxS⟩)
          · exact Or.inl (Or.inl hxT)
          · rcases (hsplit x).mp hxi with hxt | hxd
            · exact Or.inl (Or.inr ⟨hxt, hxS⟩)
            · exact Or.inr ⟨hxd, hxS⟩
      · intro hnd
        exact ih3 (nodup_targetIds_bulkIndexApply _ st.target hnd)
      · intro hnd
        rw [ih4 (hnd2 hnd)]
        rw [show (SyncState.mk st.source (bulkIndexApply st.target (st.source.filter (fun d => (ids.take 100).contains d.id)))).source = st.source from rfl]
        exact hcount hnd
termination_by ids.length
decreasing_by
  all_goals
    have hne : ids ≠ [] := by simpa [List.isEmpty_iff] using h
    have hpos : 0 < ids.length := List.length_pos.mpr hne
    simp only [List.length_drop]
    omega

theorem missing_count_eq (st : SyncState)
    (hS : (sourceIds st).Nodup) (hT : (targetIds st.target).Nodup)
    (hsub : ∀ x, x ∈ targetIds st.target → x ∈ sourceIds st) :
    (missingIds st).length + st.target.length = st.source.length := by
  have h1 := length_filter_bool_split (sourceIds st)
    (fun id => (getAllOpenSearchIds st).contains id)
  have h2 : ((sourceIds st).filter
      (fun id => (getAllOpenSearchIds st).contains id)).length
      = (targetIds st.target).length := by
    apply length_eq_of_nodup_same_mem _ _ (hS.filter _) hT
    intro x
    simp only [List.mem_filter, getAllOpenSearchIds, contains_eq_decide_mem,
      decide_eq_true_eq]
    constructor
    · rintro ⟨_, hxT⟩
      exact hxT
    · intro hxT
      exact ⟨hsub x hxT, hxT⟩
  have h3 : (missingIds st).length =
      ((sourceIds st).filter
        (fun id => !((getAllOpenSearchIds st).contains id))).length := rfl
  have h4 : (targetIds st.target).length = st.target.length := targetIds_length _
  have h5 : (sourceIds st).length = st.source.length := by simp [sourceIds]
  omega

theorem checkAndSync_equal_counts (st : SyncState)
    (heq : st.source.length = st.target.length) :
    checkAndSync st =
      (st,
        { success := true, inSync := true,
          mongoCount := some st.source.length,
          opensearchCount := some st.target.length,
          difference := some 0, synced := 0,
          missingCount := none, orphanedDocs := none }) := by
  have h0 : ((st.source.length : Int) - (st.target.length : Int) = 0) := by omega
  simp [checkAndSync, h0]

theorem checkAndSync_repair_eq (st : SyncState)
    (hgt : st.target.length < st.source.length)
    (hmne : missingIds st ≠ []) :
    checkAndSync st =
      ((syncDocumentsByIds st (missingIds st)).1,
        { success := true, inSync := true, mongoCount := none,
          opensearchCount := none, difference := none,
          synced := (syncDocumentsByIds st (missingIds st)).2,
          missingCount := some (missingIds st).length,
          orphanedDocs := none }) := by
  have h0 : ¬ ((st.source.length : Int) - (st.target.length : Int) = 0) := by omega
  have hpos : 0 < ((st.source.length : Int) - (st.target.length : Int)) := by omega
  have hne : (missingIds st).isEmpty = false := by
    simpa [List.isEmpty_iff] using hmne
  simp [checkAndSync, syncMissingDocuments, h0, hpos, hne]

theorem checkAndSync_state_spec (st : SyncState)
    (hS : (sourceIds st).Nodup) (hT : (targetIds st.target).Nodup)
    (hsub : ∀ x, x ∈ targetIds st.target → x ∈ sourceIds st) :
    (checkAndSync st).1.source = st.source ∧
    (targetIds (checkAndSync st).1.target).Nodup ∧
    (∀ x, x ∈ targetIds (checkAndSync st).1.target ↔ x ∈ sourceIds st) ∧
    (checkAndSync st).1.target.length = st.source.length := by
  have hmc := missing_count_eq st hS hT hsub
  by_cases heq : st.source.length = st.target.length
  · rw [checkAndSync_equal_counts st heq]
    refine ⟨rfl, hT, ?_, heq.symm⟩
    intro x
    constructor
    · exact hsub x
    · intro hxS
      by_contra hxT
      have hxm : x ∈ missingIds st := by
        rw [missingIds, List.mem_filter]
        refine ⟨hxS, ?_⟩
        rw [getAllOpenSearchIds, contains_eq_decide_mem]
        simpa using hxT
      have hne : missingIds st ≠ [] := by
        intro hnil
        rw [hnil] at hxm
        cases hxm
      have hpos : 0 < (missingIds st).length := List.length_pos.mpr hne
      omega
  · have hgt : st.target.length < st.source.length := by omega
    have hmpos : 0 < (missingIds st).length := by omega
    have hmne : missingIds st ≠ [] := by
      intro hnil
      rw [hnil] at hmpos
      simp at hmpos
    rw [checkAndSync_repair_eq st hgt hmne]
    obtain ⟨hsrc, hmem, hnd, _⟩ := syncDocumentsByIds_spec st (missingIds st)
    have hiff : ∀ x, x ∈ targetIds (syncDocumentsByIds st (missingIds st)).1.target ↔
        x ∈ sourceIds st := by
      intro x
      rw [hmem x]
      constructor
      · rintro (hxT | ⟨_, hxS⟩)
        · exact hsub x hxT
        · exact hxS
      · intro hxS
        by_cases hxT : x ∈ targetIds st.target
        · exact Or.inl hxT
        · refine Or.inr ⟨?_, hxS⟩
          rw [missingIds, List.mem_filter]
          refine ⟨hxS, ?_⟩
          rw [getAllOpenSearchIds, contains_eq_decide_mem]
          simpa using hxT
    refine ⟨hsrc, hnd hT, hiff, ?_⟩
    have hfin : (targetIds (syncDocumentsByIds st (missingIds st)).1.target).length
        = (sourceIds st).length := by
      apply length_eq_of_nodup_same_mem _ _ (hnd hT) hS
      exact hiff
    rw [targetIds_length] at hfin
    simpa [sourceIds] using hfin

end ReconLemmas

/-- C1 counterexample: with an empty source and one orphaned target
document the identifier sets diverge, yet the second checkAndSync pass
takes the orphan branch, not the cheap equal-count path: it reports
inSync false with difference -1 and no missing count. -/
theorem convergence_counterexample :
    (checkAndSync (checkAndSync (SyncState.mk [] [(0, [])])).1).2.inSync = false ∧
    (checkAndSync (checkAndSync (SyncState.mk [] [(0, [])])).1).2.difference =
      some (-1) ∧
    (checkAndSync (checkAndSync (SyncState.mk [] [(0, [])])).1).2.missingCount =
      none := by
  refine ⟨?_, ?_, ?_⟩ <;> rfl

/-- C1 amended: for every divergence in which each target identifier also
exists in the source (no orphans), one checkAndSync pass followed by a
second pass leaves the second pass on the cheap equal-count path: it
returns inSync with difference 0, syncing nothing and reporting no missing
documents.  When the target holds identifiers the source lacks, the engine
only logs orphan drift and does not converge. -/
theorem convergence_subset (st : SyncState)
    (hS : (sourceIds st).Nodup) (hT : (targetIds st.target).Nodup)
    (hsub : ∀ x, x ∈ targetIds st.target → x ∈ sourceIds st) :
    (checkAndSync (checkAndSync st).1).2 =
      { success := true, inSync := true,
        mongoCount := some st.source.length,
        opensearchCount := some st.source.length,
        difference := some 0, synced := 0,
        missingCount := none, orphanedDocs := none } := by
  obtain ⟨hsrc, hnd, hmem, hlen⟩ := checkAndSync_state_spec st hS hT hsub
  have heq2 : (checkAndSync st).1.source.length = (checkAndSync st).1.target.length := by
    rw [hsrc, hlen]
  rw [checkAndSync_equal_counts _ heq2]
  simp [hsrc, hlen]

/-- C1 witness: source ids 0 and 1 with only 0 in the target; after one
repair pass the second pass reports the cheap in-sync result. -/
theorem convergence_subset_witness :
    (checkAndSync (checkAndSync (SyncState.mk [Doc.mk 0 [], Doc.mk 1 []]
        [(0, [])])).1).2 =
      { success := true, inSync := true, mongoCount := some 2,
        opensearchCount := some 2, difference := some 0, synced := 0,
        missingCount := none, orphanedDocs := none } := by
  have h := convergence_subset (SyncState.mk [Doc.mk 0 [], Doc.mk 1 []] [(0, [])])
    (by decide) (by decide) (by decide)
  simpa using h

/-- C3: with 1000 source documents and 950 of them in the target,
checkAndSync computes the in-memory set difference, reports missingCount
50, upserts exactly the missing documents (synced 50, the repaired target
carries exactly the source ids, the source is untouched), and the
subsequent count check takes the equal-count path with difference 0. -/
theorem gap_detection_1000_950 (st : SyncState)
    (hS : (sourceIds st).Nodup) (hT : (targetIds st.target).Nodup)
    (hsub : ∀ x, x ∈ targetIds st.target → x ∈ sourceIds st)
    (hs : st.source.length = 1000) (ht : st.target.length = 950) :
    (checkAndSync st).2.missingCount = some 50 ∧
    (checkAndSync st).2.synced = 50 ∧
    (checkAndSync st).1.source = st.source ∧
    (∀ x, x ∈ targetIds (checkAndSync st).1.target ↔ x ∈ sourceIds st) ∧
    (checkAndSync (checkAndSync st).1).2.difference = some 0 ∧
    (checkAndSync (checkAndSync st).1).2.inSync = true := by
  have hmc := missing_count_eq st hS hT hsub
  have hm50 : (missingIds st).length = 50 := by omega
  have hgt : st.target.length < st.source.length := by omega
  have hmne : missingIds st ≠ [] := by
    intro hnil
    rw [hnil] at hm50
    simp at hm50
  have hrec := checkAndSync_repair_eq st hgt hmne
  obtain ⟨hsrc4, hnd4, hmem4, hlen4⟩ := checkAndSync_state_spec st hS hT hsub
  have hmnd : (missingIds st).Nodup := hS.filter _
  obtain ⟨hsrcS, hmemS, hndS, hcountS⟩ := syncDocumentsByIds_spec st (missingIds st)
  have hsyn : (syncDocumentsByIds st (missingIds st)).2 = 50 := by
    rw [hcountS hmnd]
    rw [length_filter_id st.source (fun x => (missingIds st).contains x)]
    have hlen : ((st.source.map (·.id)).filter
        (fun x => (missingIds st).contains x)).length = (missingIds st).length := by
      apply length_eq_of_nodup_same_mem _ _ (hS.filter _) hmnd
      intro x
      simp only [List.mem_filter, contains_eq_decide_mem, decide_eq_true_eq]
      constructor
      · rintro ⟨_, hxm⟩
        exact hxm
      · intro hxm
        exact ⟨List.mem_of_mem_filter hxm, hxm⟩
    rw [hlen, hm50]
  have heq2 : (checkAndSync st).1.source.length = (checkAndSync st).1.target.length := by
    rw [hsrc4, hlen4]
  refine ⟨?_, ?_, hsrc4, hmem4, ?_, ?_⟩
  · rw [hrec]
    simpa using hm50
  · rw [hrec]
    simpa using hsyn
  · rw [checkAndSync_equal_counts _ heq2]
  · rw [checkAndSync_equal_counts _ heq2]

set_option maxRecDepth 4000 in
/-- C3 witness: source ids 0..999, target holding ids 0..949; the
hypotheses of the gap-detection theorem hold and yield missingCount 50,
synced 50 and a zero-difference follow-up check. -/
theorem gap_detection_1000_950_witness :
    (checkAndSync (SyncState.mk ((List.range 1000).map (fun i => Doc.mk i []))
        ((List.range 950).map (fun i => (i, ([] : Fields)))))).2.missingCount =
      some 50 ∧
    (checkAndSync (SyncState.mk ((List.range 1000).map (fun i => Doc.mk i []))
        ((List.range 950).map (fun i => (i, ([] : Fields)))))).2.synced = 50 ∧
    (checkAndSync (checkAndSync (SyncState.mk
        ((List.range 1000).map (fun i => Doc.mk i []))
        ((List.range 950).map (fun i => (i, ([] : Fields)))))).1).2.difference =
      some 0 := by
  have hmapS : ∀ n : Nat, (List.map (fun i => Doc.mk i []) (List.range n)).map (fun d => d.id) = List.range n := by
    intro n
    rw [List.map_map]
    conv_rhs => rw [← List.map_id (List.range n)]
    apply List.map_congr_left
    intro a _
    rfl
  have hmapT : ∀ n : Nat, (List.map (fun i => (i, ([] : Fields))) (List.range n)).map (fun e => e.1) = List.range n := by
    intro n
    rw [List.map_map]
    conv_rhs => rw [← List.map_id (List.range n)]
    apply List.map_congr_left
    intro a _
    rfl
  have hS : (sourceIds (SyncState.mk ((List.range 1000).map (fun i => Doc.mk i []))
      ((List.range 950).map (fun i => (i, ([] : Fields)))))).Nodup := by
    show ((List.map (fun i => Doc.mk i []) (List.range 1000)).map (fun d => d.id)).Nodup
    rw [hmapS]
    exact List.nodup_range 1000
  have hT : (targetIds (SyncState.mk ((List.range 1000).map (fun i => Doc.mk i []))
      ((List.range 950).map (fun i => (i, ([] : Fields))))).target).Nodup := by
    show ((List.map (fun i => (i, ([] : Fields))) (List.range 950)).map (fun e => e.1)).Nodup
    rw [hmapT]
    exact List.nodup_range 950
  have hsub : ∀ x, x ∈ targetIds (SyncState.mk
      ((List.range 1000).map (fun i => Doc.mk i []))
      ((List.range 950).map (fun i => (i, ([] : Fields))))).target →
      x ∈ sourceIds (SyncState.mk ((List.range 1000).map (fun i => Doc.mk i []))
        ((List.range 950).map (fun i => (i, ([] : Fields))))) := by
    intro x hx
    have hx2 : x ∈ List.range 950 := by
      rw [show targetIds (SyncState.mk ((List.range 1000).map (fun i => Doc.mk i []))
        ((List.range 950).map (fun i => (i, ([] : Fields))))).target =
        (List.map (fun i => (i, ([] : Fields))) (List.range 950)).map (fun e => e.1)
        from rfl, hmapT] at hx
      exact hx
    have hx3 : x ∈ List.range 1000 := by
      rw [List.mem_range] at hx2 ⊢
      omega
    show x ∈ (List.map (fun i => Doc.mk i []) (List.range 1000)).map (fun d => d.id)
    rw [hmapS]
    exact hx3
  have h := gap_detection_1000_950 (SyncState.mk
      ((List.range 1000).map (fun i => Doc.mk i []))
      ((List.range 950).map (fun i => (i, ([] : Fields))))) hS hT hsub
    (by simp) (by simp)
  exact ⟨h.1, h.2.1, h.2.2.2.2.1⟩

end MongoOsSync
